import Mathlib

/-!
Shallow embedding of the funding-matcher backend (`main.py`) and proofs about
its specification.  Python strings are Lean `String`s, Python floats are exact
rationals (`ℚ`), Python `dict` records are structures whose fields distinguish
an absent key, a key bound to `None`, and a key bound to a proper value, and
Python code that can raise (`TypeError` on `None`) is embedded in `Except Unit`.
-/

namespace FundingFinder

/-- A field of a JSON/BSON-like record: the key may be absent, present with
value `None`, or present with a value of the expected type.  Models the three
cases distinguished by Python `dict.get`. -/
inductive PyField (α : Type) where
  | absent : PyField α
  | null : PyField α
  | val : α → PyField α
deriving DecidableEq

/-- Python `str.lower()` (ASCII case folding, which covers all data used by the
program). -/
def pyLower (s : String) : String :=
  String.mk (s.data.map Char.toLower)

/-- Python whitespace characters recognised by `str.split()` on ASCII text. -/
def isPySpace (c : Char) : Bool :=
  c = ' ' || c = '\t' || c = '\n' || c = '\r' || c = '\x0b' || c = '\x0c'

/-- Python `str.split()` with no separator: split on runs of whitespace and
drop empty chunks. -/
def pySplit (s : String) : List String :=
  ((List.splitOnP isPySpace s.data).filter (fun l => l ≠ [])).map String.mk

/-- The set of lowercase whitespace-separated words of a string, as built by
`set(w for w in s.lower().split())` in `simple_score`; represented as a
duplicate-free list, so its length is the cardinality of the Python set and
filtering it by membership in another word set measures the intersection. -/
def wordSet (s : String) : List String :=
  (pySplit (pyLower s)).dedup

/-- Python `" ".join(l)`. -/
def joinSpace (l : List String) : String :=
  String.intercalate " " l

/-- Test `occursIn needle hay` holds when `needle` occurs contiguously in `hay`;
used to model the Python substring operator `needle in hay`. -/
def occursIn (needle : List Char) : List Char → Bool
  | [] => needle.isEmpty
  | c :: t => needle.isPrefixOf (c :: t) || occursIn needle t

/-- The Python substring test `needle in hay` on strings. -/
def strContains (hay needle : String) : Bool :=
  occursIn needle.data hay.data

/-- The table `KEYWORD_MAP` from `main.py`, in its declared (dict-insertion) order. -/
def KEYWORD_MAP : List (String × List String) :=
  [ ("ai", ["ai", "artificial intelligence", "machine learning", "ml", "deep learning"]),
    ("health", ["health", "biotech", "med", "clinical", "healthcare"]),
    ("climate", ["climate", "environment", "energy", "sustainability", "carbon"]),
    ("education", ["education", "edtech", "school", "learning", "students"]),
    ("agriculture", ["agriculture", "agritech", "farming", "crop", "soil"]),
    ("transport", ["transport", "mobility", "ev", "autonomous", "logistics"]),
    ("cyber", ["cyber", "security", "infosec", "privacy"]) ]

/-- The function `extract_categories` from `main.py`: collect, in declared order, every tag
one of whose trigger substrings occurs in the lowercased text; fall back to
`["general"]` when the collection is empty (Python `cats or ["general"]`). -/
def extract_categories (text : String) : List String :=
  let text_l := pyLower text
  let cats := (KEYWORD_MAP.filter (fun p => p.2.any (fun kw => strContains text_l kw))).map Prod.fst
  if cats = [] then ["general"] else cats

/-- Round half to even, the Python rounding mode for `round`. -/
def rhe (x : ℚ) : ℤ :=
  let f := Int.floor x
  let frac := x - f
  if frac < 1/2 then f
  else if 1/2 < frac then f + 1
  else if f % 2 = 0 then f else f + 1

/-- Python `round(x, 2)` on an exact rational model of the float `x`. -/
def round2 (x : ℚ) : ℚ :=
  (rhe (x * 100) : ℚ) / 100

/-- An opportunity record as read by the matcher: a dict whose relevant keys
may each be absent, `None`, or carry a value. -/
structure Opp where
  title : PyField String
  agency : PyField String
  description : PyField String
  categories : PyField (List String)
  eligibility : PyField (List String)
  region : PyField String
  deadline : PyField String
  amount : PyField String
  url : PyField String
deriving DecidableEq

/-- Python `opp.get(key)` on a string field: `None` (here `none`) for an
absent key or a `None` value. -/
def getStr (f : PyField String) : Option String :=
  match f with
  | .val s => some s
  | _ => none

/-- The function `simple_score` from `main.py`.  The only way it can raise is
`" ".join(None)` when the `categories` key is present with value `None`
(`opportunity.get("categories", [])` only defaults an absent key); an absent
or `None` description becomes `""` via `or ""`. -/
def simple_score (query : String) (opp : Opp) : Except Unit ℚ := do
  let q_words := wordSet query
  let dstr : String :=
    match opp.description with
    | .val s => s
    | _ => ""
  let cl : List String ←
    match opp.categories with
    | .absent => Except.ok []
    | .null => Except.error ()
    | .val l => Except.ok l
  let desc := dstr ++ " " ++ joinSpace cl
  let o_words := wordSet desc
  if q_words = [] then
    return (0 : ℚ)
  else
    return round2 (min (100 : ℚ)
      (((q_words.filter (fun w => o_words.contains w)).length : ℚ)
        / ((max 5 q_words.length : ℕ) : ℚ) * 100))

/-- The opportunity-side comparison text of `simple_score`: the description
(empty if absent or `None`) followed by the space-joined categories. -/
def oppText (opp : Opp) : String :=
  (match opp.description with
   | .val s => s
   | _ => "") ++ " " ++
  joinSpace (match opp.categories with
   | .val l => l
   | _ => [])

/-- The request body of `POST /match` (`MatchRequest` in `main.py`). -/
structure MatchReq where
  description : String
  sector : Option String
  region : Option String
deriving DecidableEq

/-- Python `x or ""` on an optional string: `None` and `""` both give `""`. -/
def pyOrEmpty (o : Option String) : String :=
  match o with
  | none => ""
  | some s => s

/-- The region filter of the `/match` loop: skip the opportunity when the
request carries a truthy region hint, the region value of the opportunity is
truthy, and the lowercased hint is not a substring of the lowercased region. -/
def regionExcluded (reqRegion : Option String) (opp : Opp) : Bool :=
  match reqRegion with
  | none => false
  | some r =>
    if r = "" then false
    else
      match getStr opp.region with
      | none => false
      | some v =>
        if v = "" then false
        else !(strContains (pyLower v) (pyLower r))

/-- The categories of the opportunity as read with a `None`-tolerant default
(`opp.get("categories") or []`). -/
def catsOrEmpty (opp : Opp) : List String :=
  match opp.categories with
  | .val l => l
  | _ => []

/-- The description of the opportunity with absent and `None` collapsed to `""`. -/
def descOrEmpty (opp : Opp) : String :=
  match opp.description with
  | .val s => s
  | _ => ""

/-- The `+15` category bonus of the `/match` loop:
`any(c in (opp.get("categories") or []) for c in cats)`. -/
def categoryBonus (cats : List String) (opp : Opp) : ℤ :=
  if cats.any (fun c => (catsOrEmpty opp).contains c) then 15 else 0

/-- The `+10` sector bonus of the `/match` loop.  `opp.get("categories", [])`
and `opp.get("description", "")` only default absent keys, so a key present
with value `None` raises (`" ".join(None)`, `str + None`); the check is only
reached when the sector hint is truthy. -/
def sectorBonus (sector : Option String) (opp : Opp) : Except Unit ℤ :=
  match sector with
  | none => Except.ok 0
  | some s =>
    if s = "" then Except.ok 0
    else do
      let oc : List String ←
        match opp.categories with
        | .absent => Except.ok []
        | .null => Except.error ()
        | .val l => Except.ok l
      let od : String ←
        match opp.description with
        | .absent => Except.ok ""
        | .null => Except.error ()
        | .val d => Except.ok d
      if strContains (pyLower (joinSpace oc ++ " " ++ od)) (pyLower s) then
        Except.ok 10
      else
        Except.ok 0

/-- The total bonus added to the base score for one opportunity. -/
def bonusTotal (cats : List String) (sector : Option String) (opp : Opp) : Except Unit ℤ := do
  let b1 := categoryBonus cats opp
  let b2 ← sectorBonus sector opp
  Except.ok (b1 + b2)

/-- Clamp `max(0, min(100, score + bonus))` from the `/match` loop. -/
def finalScore (score : ℚ) (bonus : ℤ) : ℚ :=
  max 0 (min 100 (score + (bonus : ℚ)))

/-- Python `str` of a float that is an exact nonnegative multiple of `1/100`
(the only scores the program produces): the shortest decimal form, with a
trailing `.0` for whole numbers. -/
def fmtScore (q : ℚ) : String :=
  let c : ℤ := Int.floor (q * 100)
  let u := c / 100
  let r := c % 100
  if r = 0 then toString u ++ ".0"
  else if r % 10 = 0 then toString u ++ "." ++ toString (r / 10)
  else if r < 10 then toString u ++ ".0" ++ toString r
  else toString u ++ "." ++ toString r

/-- Python `str` of the final clamped score of `max(0, min(100, score + bonus))`
at `main.py:156`.  `score + bonus` is always a float (the base score is a
float), and Python `min`/`max` return the first extremal argument, so the
expression yields the int `100` whenever `100 <= score + bonus`, the int `0`
whenever `min(100, score + bonus) <= 0` (only possible at exactly `0.0` since
both summands are nonnegative), and the float `score + bonus` otherwise; the
f-string prints the int cases without a decimal point. -/
def fmtFinalScore (q : ℚ) : String :=
  if q = 0 then "0"
  else if q = 100 then "100"
  else fmtScore q

/-- The single-quote character, for Python `repr` of strings. -/
def sq : String :=
  String.mk [Char.ofNat 39]

/-- Python `str` of a list of plain (quote- and escape-free) strings, as
interpolated into the `why` message. -/
def pyListRepr (l : List String) : String :=
  "[" ++ String.intercalate ", " (l.map (fun s => sq ++ s ++ sq)) ++ "]"

/-- One entry of the `results` list built by the `/match` loop.  `categories`
and `eligibility` use `opp.get(key, default)`, which still yields `None` for a
key present with value `None`. -/
structure Item where
  title : Option String
  agency : Option String
  url : Option String
  amount : Option String
  deadline : Option String
  region : Option String
  categories : Option (List String)
  eligibility : Option (List String)
  match_score : ℚ
  why : String
deriving DecidableEq

/-- Python `opp.get(key, [])` on a list field. -/
def getListD (f : PyField (List String)) : Option (List String) :=
  match f with
  | .absent => some []
  | .null => none
  | .val l => some l

/-- The body of one iteration of the `/match` loop: region filter, base
score, bonuses, clamp, and result-row assembly. -/
def processOpp (cats : List String) (req : MatchReq) (opp : Opp) : Except Unit (Option Item) :=
  if regionExcluded req.region opp then Except.ok none
  else do
    let score ← simple_score req.description opp
    let bonus ← bonusTotal cats req.sector opp
    Except.ok (some {
      title := getStr opp.title,
      agency := getStr opp.agency,
      url := getStr opp.url,
      amount := getStr opp.amount,
      deadline := getStr opp.deadline,
      region := getStr opp.region,
      categories := getListD opp.categories,
      eligibility := getListD opp.eligibility,
      match_score := finalScore score bonus,
      why := "Matched on keywords " ++ pyListRepr cats ++ "; base score "
        ++ fmtScore score ++ ", bonuses " ++ toString bonus })

/-- The `/match` loop over the fetched records, in order; the first raised
exception aborts the whole request. -/
def processAll (cats : List String) (req : MatchReq) : List Opp → Except Unit (List Item)
  | [] => Except.ok []
  | o :: os => do
    let r ← processOpp cats req o
    let rest ← processAll cats req os
    Except.ok (match r with
      | none => rest
      | some it => it :: rest)

/-- Insert an item into a list sorted by descending `match_score`, after any
earlier item with an equal score (stability). -/
def insertDesc (x : Item) : List Item → List Item
  | [] => [x]
  | y :: ys =>
    if y.match_score ≤ x.match_score then x :: y :: ys
    else y :: insertDesc x ys

/-- Model of `items.sort(key=lambda x: x["match_score"], reverse=True)`: a stable sort
by descending `match_score` (the Python sort is stable, and `reverse=True`
keeps equal-key elements in input order). -/
def sortDesc : List Item → List Item
  | [] => []
  | x :: xs => insertDesc x (sortDesc xs)

/-- One line of the highlight summary.  The numeric prefix is the literal
`"1) "` of the f-string in `main.py`, for every line; a missing title or
agency prints as Python `None`. -/
def highlightLine (x : Item) : String :=
  "1) " ++ (match x.title with | none => "None" | some s => s)
    ++ " — " ++ (match x.agency with | none => "None" | some s => s)
    ++ " (Score " ++ fmtFinalScore x.match_score ++ ")"

/-- The `report` part of the `/match` response.  The wall-clock
`generated_at` timestamp is outside the model. -/
structure Report where
  query : String
  detected_categories : List String
  highlights : List String
  notes : String
deriving DecidableEq

/-- The `/match` response body. -/
structure Resp where
  results : List Item
  report : Report
deriving DecidableEq

/-- The `/match` handler from `main.py`, parameterised by the record list it
operates on (the three hardcoded samples when the store is unavailable,
otherwise the fetched documents). -/
def matchHandler (req : MatchReq) (sample : List Opp) : Except Unit Resp := do
  let cats := extract_categories (req.description ++ " " ++ pyOrEmpty req.sector)
  let items ← processAll cats req sample
  let sorted := sortDesc items
  Except.ok {
    results := sorted.take 10,
    report := {
      query := req.description,
      detected_categories := cats,
      highlights := (sorted.take 3).map highlightLine,
      notes := "Scores are heuristic. Add more data to improve matches." } }

/-- First hardcoded sample record of the store-unavailable path. -/
def sample1 : Opp := {
  title := .val "AI for Social Good Grants",
  agency := .val "Open Philanthropy",
  description := .val "Funding for artificial intelligence projects that benefit society, including health and education.",
  categories := .val ["ai", "education"],
  eligibility := .val ["nonprofit", "researcher", "startup"],
  region := .val "Global",
  deadline := .val "Rolling",
  amount := .val "$50k-$250k",
  url := .val "https://example.org/ai-social-good" }

/-- Second hardcoded sample record of the store-unavailable path. -/
def sample2 : Opp := {
  title := .val "Climate Innovation Fund",
  agency := .val "Green Future Foundation",
  description := .val "Supports climate and energy innovations reducing carbon emissions.",
  categories := .val ["climate", "energy"],
  eligibility := .val ["startup", "small business"],
  region := .val "US",
  deadline := .val "2025-03-01",
  amount := .val "$100k-$1M",
  url := .val "https://example.org/climate-innovation" }

/-- Third hardcoded sample record of the store-unavailable path. -/
def sample3 : Opp := {
  title := .val "Digital Health Seed Grants",
  agency := .val "HealthTech Council",
  description := .val "Early-stage grants for digital health apps and clinical decision support.",
  categories := .val ["health", "ai"],
  eligibility := .val ["researcher", "startup"],
  region := .val "EU",
  deadline := .val "2025-05-01",
  amount := .val "€50k-€200k",
  url := .val "https://example.org/digital-health" }

/-- The fallback record list used when the document store is unavailable. -/
def samples : List Opp :=
  [sample1, sample2, sample3]

/-- A request with a one-word query and neither sector nor region hint. -/
def reqQ : MatchReq :=
  { description := "q", sector := none, region := none }

/-- A minimal opportunity carrying only a title and an agency. -/
def oppA : Opp :=
  { title := .val "A", agency := .val "B", description := .absent,
    categories := .absent, eligibility := .absent, region := .absent,
    deadline := .absent, amount := .absent, url := .absent }

/-- A second minimal opportunity carrying only a title and an agency. -/
def oppB : Opp :=
  { title := .val "C", agency := .val "D", description := .absent,
    categories := .absent, eligibility := .absent, region := .absent,
    deadline := .absent, amount := .absent, url := .absent }

/-- The response of the handler on `reqQ` with an empty record list. -/
def respEmpty : Resp :=
  { results := [],
    report := {
      query := "q",
      detected_categories := ["general"],
      highlights := [],
      notes := "Scores are heuristic. Add more data to improve matches." } }

end FundingFinder

deriving instance DecidableEq for Except

namespace FundingFinder

/-- C1: for every query string and every opportunity record (whose
`categories` key, a list in the data model, is not bound to `None`),
`simple_score` returns the rounded, capped overlap ratio, and exactly `0.0`
when the query word set is empty. -/
theorem simple_score_formula (query : String) (opp : Opp)
    (h : opp.categories ≠ PyField.null) :
    (wordSet query = [] → simple_score query opp = Except.ok 0) ∧
    (wordSet query ≠ [] →
      simple_score query opp = Except.ok (round2 (min (100 : ℚ)
        ((((wordSet query).filter (fun w => (wordSet (oppText opp)).contains w)).length : ℚ)
          / ((max 5 (wordSet query).length : ℕ) : ℚ) * 100)))) := by
  rcases hc : opp.categories with _ | _ | l
  · constructor <;> intro he <;>
      simp [simple_score, hc, oppText, he, bind, Except.bind, pure, Except.pure]
  · exact absurd hc h
  · constructor <;> intro he <;>
      simp [simple_score, hc, oppText, he, bind, Except.bind, pure, Except.pure]

/-- Witness for C1 at the empty query and at the end-to-end example query,
both against the second hardcoded sample record. -/
theorem simple_score_formula_w :
    simple_score "" sample2 = Except.ok 0 ∧
    simple_score "climate energy carbon reduction" sample2 =
      Except.ok (round2 (min (100 : ℚ)
        ((((wordSet "climate energy carbon reduction").filter
            (fun w => (wordSet (oppText sample2)).contains w)).length : ℚ)
          / ((max 5 (wordSet "climate energy carbon reduction").length : ℕ) : ℚ) * 100))) := by
  constructor
  · exact (simple_score_formula "" sample2 (by decide)).1 (by decide)
  · exact (simple_score_formula "climate energy carbon reduction" sample2 (by decide)).2 (by decide)

/-- The sector-bonus condition as the claim states it: a nonempty sector hint
whose lowercasing occurs in the lowercased space-joined categories followed by
the description. -/
def sectorCond (sector : Option String) (opp : Opp) : Bool :=
  match sector with
  | none => false
  | some s =>
    decide (s ≠ "") &&
      strContains (pyLower (joinSpace (catsOrEmpty opp) ++ " " ++ descOrEmpty opp)) (pyLower s)

/-- C2: whenever the bonus computation of the `/match` loop completes, the
bonus it adds is exactly 15 for a category-tag hit plus 10 for a sector-hint
substring hit, each 0 otherwise. -/
theorem sectorBonus_formula (sector : Option String) (opp : Opp) (b2 : ℤ)
    (h : sectorBonus sector opp = Except.ok b2) :
    b2 = if sectorCond sector opp then 10 else 0 := by
  rcases sector with _ | s
  · simp [sectorBonus] at h
    simp [sectorCond, ← h]
  · by_cases hs : s = ""
    · simp [sectorBonus, hs] at h
      simp [sectorCond, hs, ← h]
    · rcases hcat : opp.categories with _ | _ | l <;>
        rcases hdesc : opp.description with _ | _ | d <;>
        simp [sectorBonus, hs, hcat, hdesc, bind, Except.bind] at h <;>
        split at h <;>
        simp_all [sectorCond, hcat, hdesc, catsOrEmpty, descOrEmpty, hs]

/-- C2: whenever the bonus computation of the `/match` loop completes, the
bonus it adds is exactly 15 for a category-tag hit plus 10 for a sector-hint
substring hit, each 0 otherwise. -/
theorem bonus_formula (cats : List String) (sector : Option String) (opp : Opp) (b : ℤ)
    (h : bonusTotal cats sector opp = Except.ok b) :
    b = (if cats.any (fun c => (catsOrEmpty opp).contains c) then 15 else 0)
      + (if sectorCond sector opp then 10 else 0) := by
  obtain ⟨b2, hsb, hb⟩ :
      ∃ b2, sectorBonus sector opp = Except.ok b2 ∧ b = categoryBonus cats opp + b2 := by
    rcases hsb : sectorBonus sector opp with e | b2
    · simp [bonusTotal, hsb, bind, Except.bind] at h
    · simp [bonusTotal, hsb, bind, Except.bind] at h
      exact ⟨b2, rfl, h.symm⟩
  rw [hb, sectorBonus_formula sector opp b2 hsb, categoryBonus]

/-- Witness for C2: the first sample record with detected tag `ai` and sector
hint `health` receives both bonuses, 25 in total. -/
theorem bonus_formula_w :
    (25 : ℤ) = (if (["ai"].any fun c => (catsOrEmpty sample1).contains c) then 15 else 0)
      + (if sectorCond (some "health") sample1 then 10 else 0) :=
  bonus_formula ["ai"] (some "health") sample1 25 (by decide)

/-- C3: every item the `/match` loop emits carries
`match_score = max(0, min(100, base + bonus))`, hence a score in `[0, 100]`,
with no further rounding; in particular base 95 with both bonuses gives 100. -/
theorem final_score_clamped (cats : List String) (req : MatchReq) (opp : Opp) (it : Item)
    (h : processOpp cats req opp = Except.ok (some it)) :
    (∃ base bonus, simple_score req.description opp = Except.ok base ∧
      bonusTotal cats req.sector opp = Except.ok bonus ∧
      it.match_score = max 0 (min 100 (base + (bonus : ℚ)))) ∧
    0 ≤ it.match_score ∧ it.match_score ≤ 100 ∧
    finalScore 95 25 = 100 := by
  by_cases hre : regionExcluded req.region opp = true
  · simp [processOpp, hre] at h
  · rcases hs : simple_score req.description opp with e | base
    · simp [processOpp, hre, hs, bind, Except.bind] at h
    · rcases hb : bonusTotal cats req.sector opp with e | bonus
      · simp [processOpp, hre, hs, hb, bind, Except.bind] at h
      · simp only [processOpp, hre, hs, hb, bind, Except.bind, if_false,
          Bool.false_eq_true, Except.ok.injEq, Option.some.injEq] at h
        refine ⟨⟨base, bonus, rfl, rfl, ?_⟩, ?_, ?_, ?_⟩
        · rw [← h]; rfl
        · rw [← h]; exact le_max_left 0 _
        · rw [← h]
          exact max_le (by norm_num) (min_le_left _ _)
        · norm_num [finalScore]

/-- Witness for C3 on a concrete processed item: the minimal record `oppA`
scored against `reqQ` yields a clamped score. -/
theorem final_score_clamped_w :
    0 ≤ (0 : ℚ) ∧ (0 : ℚ) ≤ 100 := by
  have h := final_score_clamped ["general"] reqQ oppA
    { title := some "A", agency := some "B", url := none, amount := none,
      deadline := none, region := none, categories := some [],
      eligibility := some [],
      match_score := 0,
      why := "Matched on keywords [\x27general\x27]; base score 0.0, bonuses 0" }
    (by with_unfolding_all rfl)
  exact ⟨h.2.1, h.2.2.1⟩

/-- C4: with a region hint, an opportunity is excluded exactly when it has a
truthy region value whose lowercasing does not contain the lowercased hint;
records without a region value are never excluded, nor is anything excluded
without a hint; the `US`-region sample is excluded for hint `EU` and kept for
hints `us` and `US`. -/
theorem region_filter_characterization :
    (∀ (hint : String) (opp : Opp),
      regionExcluded (some hint) opp = true ↔
        ∃ v, getStr opp.region = some v ∧ v ≠ "" ∧
          strContains (pyLower v) (pyLower hint) = false) ∧
    (∀ opp : Opp, regionExcluded none opp = false) ∧
    regionExcluded (some "EU") sample2 = true ∧
    regionExcluded (some "us") sample2 = false ∧
    regionExcluded (some "US") sample2 = false ∧
    (∀ (hint : String) (opp : Opp), getStr opp.region = none →
      regionExcluded (some hint) opp = false) := by
  refine ⟨?_, fun opp => rfl, by decide, by decide, by decide, ?_⟩
  · intro hint opp
    by_cases hh : hint = ""
    · subst hh
      constructor
      · intro hex
        exfalso
        revert hex
        simp only [regionExcluded, if_pos rfl]
        exact fun hex => by simp at hex
      · rintro ⟨v, hv, hne, hcontains⟩
        exfalso
        have : strContains (pyLower v) (pyLower "") = true := by
          have : pyLower "" = "" := rfl
          rw [this]
          cases hl : (pyLower v).data <;> simp [strContains, occursIn, hl, List.isPrefixOf]
        rw [this] at hcontains
        cases hcontains
    · rcases hr : getStr opp.region with _ | v
      · simp only [regionExcluded, if_neg hh, hr]
        constructor
        · intro hex; cases hex
        · rintro ⟨v, hv, -⟩; cases hv
      · by_cases hv : v = ""
        · subst hv
          simp only [regionExcluded, if_neg hh, hr, if_pos rfl]
          constructor
          · intro hex; cases hex
          · rintro ⟨w, hw, hne, -⟩
            cases hw
            exact (hne rfl).elim
        · simp only [regionExcluded, if_neg hh, hr, if_neg hv, Bool.not_eq_true]
          constructor
          · intro hex
            exact ⟨v, rfl, hv, by simpa using hex⟩
          · rintro ⟨w, hw, -, hcontains⟩
            cases hw
            simp [hcontains]
  · intro hint opp hr
    simp only [regionExcluded, hr]
    split <;> rfl

/-- Witness for C4: a record with no region key is never excluded. -/
theorem region_filter_characterization_w :
    regionExcluded (some "EU") oppA = false :=
  region_filter_characterization.2.2.2.2.2 "EU" oppA (by decide)

theorem insertDesc_perm (x : Item) (l : List Item) :
    List.Perm (insertDesc x l) (x :: l) := by
  induction l with
  | nil => exact List.Perm.refl _
  | cons y ys ih =>
    by_cases h : y.match_score ≤ x.match_score
    · simp only [insertDesc, if_pos h]
      exact List.Perm.refl _
    · simp only [insertDesc, if_neg h]
      exact (ih.cons y).trans (List.Perm.swap x y ys)

theorem sortDesc_perm (l : List Item) : List.Perm (sortDesc l) l := by
  induction l with
  | nil => exact List.Perm.refl _
  | cons x xs ih => exact (insertDesc_perm x (sortDesc xs)).trans (ih.cons x)

theorem pairwise_insertDesc (x : Item) (l : List Item)
    (h : l.Pairwise (fun a b => b.match_score ≤ a.match_score)) :
    (insertDesc x l).Pairwise (fun a b => b.match_score ≤ a.match_score) := by
  induction l with
  | nil => simp [insertDesc]
  | cons y ys ih =>
    obtain ⟨hy, hys⟩ := List.pairwise_cons.mp h
    by_cases hle : y.match_score ≤ x.match_score
    · simp only [insertDesc, if_pos hle]
      refine List.Pairwise.cons ?_ h
      intro b hb
      rcases List.mem_cons.mp hb with rfl | hb
      · exact hle
      · exact (hy b hb).trans hle
    · simp only [insertDesc, if_neg hle]
      refine List.Pairwise.cons ?_ (ih hys)
      intro b hb
      rcases List.mem_cons.mp ((insertDesc_perm x ys).mem_iff.mp hb) with rfl | hb2
      · exact le_of_lt (lt_of_not_le hle)
      · exact hy b hb2

theorem sortDesc_sorted (l : List Item) :
    (sortDesc l).Pairwise (fun a b => b.match_score ≤ a.match_score) := by
  induction l with
  | nil => simp [sortDesc]
  | cons x xs ih => exact pairwise_insertDesc x (sortDesc xs) ih

theorem filter_insertDesc (x : Item) (l : List Item) (s : ℚ) :
    (insertDesc x l).filter (fun y => decide (y.match_score = s)) =
      if x.match_score = s
      then x :: l.filter (fun y => decide (y.match_score = s))
      else l.filter (fun y => decide (y.match_score = s)) := by
  induction l with
  | nil =>
    by_cases hx : x.match_score = s <;> simp [insertDesc, hx]
  | cons y ys ih =>
    by_cases hle : y.match_score ≤ x.match_score
    · simp only [insertDesc, if_pos hle]
      by_cases hx : x.match_score = s <;> simp [List.filter_cons, hx]
    · simp only [insertDesc, if_neg hle]
      by_cases hy : y.match_score = s
      · have hx : ¬x.match_score = s := fun hx => hle (le_of_eq (hy.trans hx.symm))
        simp [List.filter_cons, hy, hx, ih]
      · simp [List.filter_cons, hy, ih]

theorem sortDesc_filter (l : List Item) (s : ℚ) :
    (sortDesc l).filter (fun y => decide (y.match_score = s)) =
      l.filter (fun y => decide (y.match_score = s)) := by
  induction l with
  | nil => rfl
  | cons x xs ih =>
    by_cases hx : x.match_score = s <;>
      simp [sortDesc, filter_insertDesc, hx, ih, List.filter_cons]

/-- C5: the results are the scored items stably sorted by descending final
score and truncated to at most 10 entries: the sorted list is a permutation
of the loop output, pairwise descending, equal-score items keep their
original relative order (their filtered subsequences coincide), and the
truncated results are a prefix of each equal-score subsequence. -/
theorem results_sorted_stable (req : MatchReq) (sample : List Opp) (items : List Item) (resp : Resp)
    (h1 : processAll (extract_categories (req.description ++ " " ++ pyOrEmpty req.sector)) req sample
      = Except.ok items)
    (h2 : matchHandler req sample = Except.ok resp) :
    resp.results = (sortDesc items).take 10 ∧
    resp.results.length ≤ 10 ∧
    resp.results.Pairwise (fun a b => b.match_score ≤ a.match_score) ∧
    List.Perm (sortDesc items) items ∧
    (∀ s : ℚ, (sortDesc items).filter (fun y => decide (y.match_score = s)) =
      items.filter (fun y => decide (y.match_score = s))) ∧
    (∀ s : ℚ, List.IsPrefix (resp.results.filter (fun y => decide (y.match_score = s)))
      (items.filter (fun y => decide (y.match_score = s)))) := by
  have hres : resp.results = (sortDesc items).take 10 := by
    simp only [matchHandler, h1, bind, Except.bind, Except.ok.injEq] at h2
    rw [← h2]
  refine ⟨hres, ?_, ?_, sortDesc_perm items, fun s => sortDesc_filter items s, ?_⟩
  · rw [hres, List.length_take]
    exact min_le_left 10 _
  · rw [hres]
    exact List.Pairwise.sublist (List.take_sublist 10 _) (sortDesc_sorted items)
  · intro s
    rw [hres]
    have h4 := List.IsPrefix.filter (fun y => decide (y.match_score = s))
      (List.take_prefix 10 (sortDesc items))
    rw [sortDesc_filter items s] at h4
    exact h4

/-- Witness for C5 on the empty record list. -/
theorem results_sorted_stable_w : respEmpty.results.length ≤ 10 :=
  (results_sorted_stable reqQ [] [] respEmpty (by rfl) (by rfl)).2.1

theorem mem_map_fst_filter {M : List (String × List String)}
    (pred : String × List String → Bool)
    (nd : (M.map Prod.fst).Nodup) {k : String} {kws : List String}
    (hm : (k, kws) ∈ M) :
    (k ∈ (M.filter pred).map Prod.fst ↔ pred (k, kws) = true) := by
  induction M with
  | nil => cases hm
  | cons p ps ih =>
    simp only [List.map_cons, List.nodup_cons] at nd
    obtain ⟨np, nps⟩ := nd
    rcases List.mem_cons.mp hm with heq | hm2
    · cases heq.symm
      constructor
      · intro hk
        by_contra hp
        have hp2 : pred (k, kws) = false := by
          simpa using hp
        rw [List.filter_cons] at hk
        simp only [hp2] at hk
        exact np (((List.filter_sublist ps).map Prod.fst).subset hk)
      · intro hp
        simp [List.filter_cons, hp]
    · have hk_ne : k ≠ p.1 := by
        intro he
        exact np (he ▸ List.mem_map_of_mem Prod.fst hm2)
      rw [List.filter_cons]
      by_cases hp : pred p = true
      · simp [hp, hk_ne, ih nps hm2]
      · simp [hp, ih nps hm2]

/-- C6: `extract_categories` always returns a non-empty duplicate-free list;
a mapped tag appears exactly when one of its triggers occurs in the lowercased
text; tags keep the declared order of the keyword table; and when nothing
matches the result is exactly `["general"]`. -/
theorem extract_categories_spec (text : String) :
    extract_categories text ≠ [] ∧
    (extract_categories text).Nodup ∧
    (∀ k kws, (k, kws) ∈ KEYWORD_MAP →
      (k ∈ extract_categories text ↔
        kws.any (fun kw => strContains (pyLower text) kw) = true)) ∧
    ((∀ k kws, (k, kws) ∈ KEYWORD_MAP →
        kws.any (fun kw => strContains (pyLower text) kw) = false) →
      extract_categories text = ["general"]) ∧
    (extract_categories text = ["general"] ∨
      (extract_categories text).Sublist (KEYWORD_MAP.map Prod.fst)) := by
  have hnd : (KEYWORD_MAP.map Prod.fst).Nodup := by decide
  have hgen : "general" ∉ KEYWORD_MAP.map Prod.fst := by decide
  by_cases hempty :
      (KEYWORD_MAP.filter (fun p => p.2.any (fun kw => strContains (pyLower text) kw))).map Prod.fst = []
  · have hex : extract_categories text = ["general"] := by
      simp [extract_categories, hempty]
    refine ⟨by simp [hex], by simp [hex], ?_, fun _ => hex, Or.inl hex⟩
    intro k kws hm
    rw [hex]
    constructor
    · intro hk
      exfalso
      have hkg : k = "general" := by simpa using hk
      exact hgen (hkg ▸ List.mem_map_of_mem Prod.fst hm)
    · intro hp
      exfalso
      have hmem : (k, kws) ∈
          KEYWORD_MAP.filter (fun p => p.2.any (fun kw => strContains (pyLower text) kw)) :=
        List.mem_filter.mpr ⟨hm, hp⟩
      have hmem2 := List.mem_map_of_mem Prod.fst hmem
      rw [hempty] at hmem2
      cases hmem2
  · have hex : extract_categories text =
        (KEYWORD_MAP.filter (fun p => p.2.any (fun kw => strContains (pyLower text) kw))).map Prod.fst := by
      simp [extract_categories, hempty]
    have hsub :
        ((KEYWORD_MAP.filter (fun p => p.2.any (fun kw => strContains (pyLower text) kw))).map
          Prod.fst).Sublist (KEYWORD_MAP.map Prod.fst) :=
      List.Sublist.map Prod.fst (List.filter_sublist KEYWORD_MAP)
    refine ⟨by rw [hex]; exact hempty, ?_, ?_, ?_, Or.inr (by rw [hex]; exact hsub)⟩
    · rw [hex]
      exact List.Nodup.sublist hsub hnd
    · intro k kws hm
      rw [hex]
      exact mem_map_fst_filter _ hnd hm
    · intro hall
      exfalso
      apply hempty
      have hfe : KEYWORD_MAP.filter (fun p => p.2.any (fun kw => strContains (pyLower text) kw)) = [] := by
        rw [List.filter_eq_nil_iff]
        rintro ⟨k, kws⟩ hm
        simp [hall k kws hm]
      rw [hfe]
      rfl

/-- Witness for C6: on the text `hello ai` the tag `ai` is included because
one of its triggers occurs. -/
theorem extract_categories_spec_w :
    ("ai" ∈ extract_categories "hello ai" ↔
      (["ai", "artificial intelligence", "machine learning", "ml", "deep learning"].any
        (fun kw => strContains (pyLower "hello ai") kw)) = true) :=
  (extract_categories_spec "hello ai").2.2.1 "ai"
    ["ai", "artificial intelligence", "machine learning", "ml", "deep learning"] (by decide)

theorem matchHandler_ok_shape (req : MatchReq) (sample : List Opp) (resp : Resp)
    (h : matchHandler req sample = Except.ok resp) :
    ∃ items,
      processAll (extract_categories (req.description ++ " " ++ pyOrEmpty req.sector)) req sample
        = Except.ok items ∧
      resp = {
        results := (sortDesc items).take 10,
        report := {
          query := req.description,
          detected_categories := extract_categories (req.description ++ " " ++ pyOrEmpty req.sector),
          highlights := ((sortDesc items).take 3).map highlightLine,
          notes := "Scores are heuristic. Add more data to improve matches." } } := by
  rcases hp : processAll (extract_categories (req.description ++ " " ++ pyOrEmpty req.sector)) req sample
    with e | items
  · simp [matchHandler, hp, bind, Except.bind] at h
  · refine ⟨items, rfl, ?_⟩
    simp only [matchHandler, hp, bind, Except.bind, Except.ok.injEq] at h
    exact h.symm

/-- Counterexample to C7: on two zero-scoring records, the second highlight
line is numbered `1)`, not its 1-based position `2)`; the f-string in
`main.py` hardcodes the prefix `1)` for every line.  (The clamped zero score
is the Python int `0`, printed without a decimal point.) -/
theorem highlights_position_counterexample :
    (matchHandler reqQ [oppA, oppB]).toOption.map (fun r => r.report.highlights.getD 1 "") =
      some "1) C — D (Score 0)" ∧
    "1) C — D (Score 0)" ≠ "2) C — D (Score 0)" := by
  constructor
  · with_unfolding_all rfl
  · decide

/-- C7 (amended): the highlights list has at most 3 lines, one per
top-ranked result in order, each formatted as
`1) Title — Agency (Score S)` with the literal prefix `1)` on every line;
`S` is the final score as Python prints it (the bare int `0` or `100` when
the clamp of `main.py:156` returns an int, a float such as `75.0`
otherwise). -/
theorem highlights_format (req : MatchReq) (sample : List Opp) (resp : Resp)
    (h : matchHandler req sample = Except.ok resp) :
    resp.report.highlights.length ≤ 3 ∧
    resp.report.highlights = (resp.results.take 3).map (fun x =>
      "1) " ++ (match x.title with | none => "None" | some t => t) ++ " — "
        ++ (match x.agency with | none => "None" | some a => a)
        ++ " (Score " ++ fmtFinalScore x.match_score ++ ")") := by
  obtain ⟨items, h1, rfl⟩ := matchHandler_ok_shape req sample resp h
  constructor
  · rw [List.length_map, List.length_take]
    exact min_le_left 3 _
  · have h3 : (3 : ℕ) ⊓ 10 = 3 := rfl
    rw [List.take_take, h3]
    rfl

/-- Witness for C7 (amended) on the empty record list. -/
theorem highlights_format_w : respEmpty.report.highlights.length ≤ 3 :=
  (highlights_format reqQ [] respEmpty (by rfl)).1

/-- Counterexample to C8: two requests with the same description but
different sector hints produce different detected categories, because the
handler feeds `description + " " + sector` to the extractor. -/
theorem detected_categories_counterexample :
    (matchHandler { description := "hello", sector := some "ai", region := none } []).toOption.map
        (fun r => r.report.detected_categories) = some ["ai"] ∧
    (matchHandler { description := "hello", sector := none, region := none } []).toOption.map
        (fun r => r.report.detected_categories) = some ["general"] ∧
    (["ai"] : List String) ≠ ["general"] := by
  refine ⟨by rfl, by rfl, by decide⟩

/-- C8 (amended): the detected categories are computed by applying the
extractor to the description, a space, and the sector hint (empty when
absent), so they may depend on the sector hint. -/
theorem detected_categories_source (req : MatchReq) (sample : List Opp) (resp : Resp)
    (h : matchHandler req sample = Except.ok resp) :
    resp.report.detected_categories =
      extract_categories (req.description ++ " " ++ pyOrEmpty req.sector) := by
  obtain ⟨items, h1, rfl⟩ := matchHandler_ok_shape req sample resp h
  rfl

/-- Witness for C8 (amended) on the empty record list. -/
theorem detected_categories_source_w :
    respEmpty.report.detected_categories =
      extract_categories (reqQ.description ++ " " ++ pyOrEmpty reqQ.sector) :=
  detected_categories_source reqQ [] respEmpty (by rfl)

/-- A record whose `categories` key is present with value `None`. -/
def oppNullCats : Opp :=
  { title := .absent, agency := .absent, description := .absent,
    categories := .null, eligibility := .absent, region := .absent,
    deadline := .absent, amount := .absent, url := .absent }

/-- A record whose `description` key is present with value `None`. -/
def oppNullDesc : Opp :=
  { title := .absent, agency := .absent, description := .null,
    categories := .absent, eligibility := .absent, region := .absent,
    deadline := .absent, amount := .absent, url := .absent }

/-- Counterexample to C9: a record whose `categories` key holds `None` makes
the scorer raise (`" ".join(None)` is a `TypeError`) instead of treating the
null as an empty list. -/
theorem null_categories_counterexample :
    simple_score "climate grant" oppNullCats = Except.error () := rfl

theorem simple_score_eval (query : String) (opp : Opp) (h : opp.categories ≠ PyField.null) :
    simple_score query opp = Except.ok (
      if wordSet query = [] then 0
      else round2 (min (100 : ℚ)
        ((((wordSet query).filter (fun w => (wordSet (oppText opp)).contains w)).length : ℚ)
          / ((max 5 (wordSet query).length : ℕ) : ℚ) * 100))) := by
  rcases hc : opp.categories with _ | _ | l
  · by_cases he : wordSet query = [] <;>
      simp [simple_score, hc, oppText, he, bind, Except.bind, pure, Except.pure]
  · exact absurd hc h
  · by_cases he : wordSet query = [] <;>
      simp [simple_score, hc, oppText, he, bind, Except.bind, pure, Except.pure]

theorem sectorBonus_eval (sector : Option String) (opp : Opp)
    (h1 : opp.categories ≠ PyField.null) (h2 : opp.description ≠ PyField.null) :
    sectorBonus sector opp = Except.ok (if sectorCond sector opp then 10 else 0) := by
  rcases sector with _ | s
  · simp [sectorBonus, sectorCond]
  · by_cases hs : s = ""
    · simp [sectorBonus, sectorCond, hs]
    · rcases hc : opp.categories with _ | _ | l <;> rcases hd : opp.description with _ | _ | d <;>
        first
          | exact absurd hc h1
          | exact absurd hd h2
          | (simp only [sectorBonus, sectorCond, if_neg hs, hc, hd, bind, Except.bind,
               catsOrEmpty, descOrEmpty]
             split <;> simp_all)

theorem bonusTotal_eval (cats : List String) (sector : Option String) (opp : Opp)
    (h1 : opp.categories ≠ PyField.null) (h2 : opp.description ≠ PyField.null) :
    bonusTotal cats sector opp
      = Except.ok (categoryBonus cats opp + (if sectorCond sector opp then 10 else 0)) := by
  simp [bonusTotal, sectorBonus_eval sector opp h1 h2, bind, Except.bind]

/-- C9 (amended): records with missing (absent) fields are processed without
exception, with absent description read as `""` and absent categories as
`[]`, and an absent region behaves like a null one; but a `categories` key
holding `None` always makes the scorer raise, and a `description` key holding
`None` makes the sector-bonus check raise whenever a sector hint is given. -/
theorem missing_fields_defaults :
    (∀ (cats : List String) (req : MatchReq) (opp : Opp),
      opp.categories ≠ PyField.null → opp.description ≠ PyField.null →
      ∃ r, processOpp cats req opp = Except.ok r) ∧
    (∀ (cats : List String) (req : MatchReq) (opp : Opp),
      processOpp cats req { opp with description := PyField.absent } =
        processOpp cats req { opp with description := PyField.val "" }) ∧
    (∀ (cats : List String) (req : MatchReq) (opp : Opp),
      processOpp cats req { opp with categories := PyField.absent } =
        processOpp cats req { opp with categories := PyField.val [] }) ∧
    (∀ (cats : List String) (req : MatchReq) (opp : Opp),
      processOpp cats req { opp with region := PyField.absent } =
        processOpp cats req { opp with region := PyField.null }) ∧
    (∀ (query : String) (opp : Opp), opp.categories = PyField.null →
      simple_score query opp = Except.error ()) ∧
    (∀ (s : String) (opp : Opp), s ≠ "" → opp.categories ≠ PyField.null →
      opp.description = PyField.null → sectorBonus (some s) opp = Except.error ()) := by
  refine ⟨?_, ?_, ?_, ?_, ?_, ?_⟩
  · intro cats req opp h1 h2
    rcases hps : processOpp cats req opp with e | r
    · exfalso
      by_cases hre : regionExcluded req.region opp = true
      · simp [processOpp, hre] at hps
      · simp [processOpp, hre, simple_score_eval req.description opp h1,
          bonusTotal_eval cats req.sector opp h1 h2, bind, Except.bind] at hps
    · exact ⟨r, rfl⟩
  · intro cats req opp
    rfl
  · intro cats req opp
    rfl
  · intro cats req opp
    rfl
  · intro query opp hc
    simp [simple_score, hc, bind, Except.bind]
  · intro s opp hs hc hd
    rcases hcat : opp.categories with _ | _ | l
    · simp [sectorBonus, if_neg hs, hcat, hd, bind, Except.bind]
    · exact absurd hcat hc
    · simp [sectorBonus, if_neg hs, hcat, hd, bind, Except.bind]

/-- Witness for C9 (amended): a null description raises in the sector-bonus
check once a sector hint is supplied. -/
theorem missing_fields_defaults_w :
    sectorBonus (some "ai") oppNullDesc = Except.error () :=
  missing_fields_defaults.2.2.2.2.2 "ai" oppNullDesc (by decide) (by decide) (by decide)

/-- The end-to-end request of the specification example: climate query, no
sector, region hint `US`. -/
def req10 : MatchReq :=
  { description := "climate energy carbon reduction", sector := none, region := some "US" }

/-- C10: with the store unavailable (the three fixed samples) and the example
request, the results consist exactly of the `Climate Innovation Fund` record
with score 75 (strictly positive), and the `Digital Health Seed Grants`
record is excluded by the region filter. -/
theorem end_to_end_sample :
    (matchHandler req10 samples).toOption.map
        (fun r => r.results.map (fun x => (x.title, x.match_score))) =
      some [(some "Climate Innovation Fund", (75 : ℚ))] ∧
    (0 : ℚ) < 75 ∧
    (matchHandler req10 samples).toOption.map
        (fun r => r.results.all (fun x => decide (x.title ≠ some "Digital Health Seed Grants"))) =
      some true := by
  refine ⟨by with_unfolding_all rfl, by norm_num, by with_unfolding_all rfl⟩

end FundingFinder
